import Mathlib

/-!
Shallow embedding of the `strands-agentcore-sample-code` repository's own
helper functions (keyword sentiment analysis, SQL safety guard, memory
manager, document chunker, keyword "vector store", code-execution guard,
FastAPI chat route, database setup), together with theorems settling the
spec claims about them.

Python strings are modelled as Lean `String` / `List Char`; Python string
methods (`lower`, `upper`, `strip`, `split`, `startswith`, `in`, slicing,
`rfind`, `lst[-n:]`) are embedded below with Python's semantics (ASCII
case-mapping, which covers every character the claims compare against).
-/

namespace Strands

/-! ### Python string primitives -/

/-- The characters Python's `str.strip()` / `str.split()` treat as
whitespace (the ASCII ones; the repository's inputs are ASCII). -/
def pyIsSpace (c : Char) : Bool :=
  c == ' ' || c == '\t' || c == '\n' || c == '\r' || c == '\x0b' || c == '\x0c'

/-- Python `str.lower()` on a character list (ASCII case mapping). -/
def pyLowerChars (l : List Char) : List Char := l.map Char.toLower

/-- Python `str.upper()` on a character list (ASCII case mapping). -/
def pyUpperChars (l : List Char) : List Char := l.map Char.toUpper

/-- Python `str.lstrip()` on a character list. -/
def pyLStrip (l : List Char) : List Char := l.dropWhile (fun c => pyIsSpace c)

/-- Python `str.strip()` on a character list: drop leading and trailing
whitespace. -/
def pyStripChars (l : List Char) : List Char :=
  ((pyLStrip l).reverse.dropWhile (fun c => pyIsSpace c)).reverse

/-- Python `str.startswith(prefix)`. -/
def pyStartsWith (l p : List Char) : Bool := p.isPrefixOf l

/-- Python `needle in haystack` substring containment. -/
def pyContains (hay needle : List Char) : Bool := decide (needle <:+: hay)

/-- Python `str.split()` (no separator argument): split on runs of
whitespace, producing no empty tokens.  `acc` holds the characters of the
token currently being read, in reverse. -/
def pySplitAux : List Char → List Char → List (List Char)
  | [], acc => if acc.isEmpty then [] else [acc.reverse]
  | c :: cs, acc =>
    if pyIsSpace c then
      if acc.isEmpty then pySplitAux cs [] else acc.reverse :: pySplitAux cs []
    else
      pySplitAux cs (c :: acc)

/-- Python `str.split()`. -/
def pySplitChars (l : List Char) : List (List Char) := pySplitAux l []

/-- Python `lst[-n:]`: the last `n` elements (all of them when the list is
shorter than `n`). -/
def pyLastN (n : Nat) (l : List α) : List α := l.drop (l.length - n)

/-! ### C10 — `analyze_sentiment` (src/02_tools_and_functions.py) -/

/-- `positive_words` from `analyze_sentiment`. -/
def positive_words : List String := ["good", "great", "excellent", "amazing"]

/-- `negative_words` from `analyze_sentiment`. -/
def negative_words : List String := ["bad", "poor", "terrible", "awful"]

/-- `pos_count` / `neg_count`: how many of the listed words occur in
`text_lower` as substrings (each listed word counted at most once). -/
def sentimentCount (ws : List String) (textLower : List Char) : Nat :=
  ws.countP (fun w => pyContains textLower w.data)

/-- `analyze_sentiment` from src/02_tools_and_functions.py (`text_lower`,
`pos_count`, `neg_count` inlined). -/
def analyze_sentiment (text : String) : String :=
  if sentimentCount positive_words (pyLowerChars text.data) >
      sentimentCount negative_words (pyLowerChars text.data) then
    "Positive sentiment"
  else if sentimentCount negative_words (pyLowerChars text.data) >
      sentimentCount positive_words (pyLowerChars text.data) then
    "Negative sentiment"
  else "Neutral sentiment"

/-- C10: `analyze_sentiment` is total (a Lean function) and returns exactly
one of the three sentiment strings, with each returned iff the
corresponding comparison of the two keyword counts holds. -/
theorem analyze_sentiment_trichotomy (text : String) :
    (analyze_sentiment text = "Positive sentiment" ∨
     analyze_sentiment text = "Negative sentiment" ∨
     analyze_sentiment text = "Neutral sentiment") ∧
    (analyze_sentiment text = "Positive sentiment" ↔
      sentimentCount negative_words (pyLowerChars text.data) <
        sentimentCount positive_words (pyLowerChars text.data)) ∧
    (analyze_sentiment text = "Negative sentiment" ↔
      sentimentCount positive_words (pyLowerChars text.data) <
        sentimentCount negative_words (pyLowerChars text.data)) ∧
    (analyze_sentiment text = "Neutral sentiment" ↔
      sentimentCount positive_words (pyLowerChars text.data) =
        sentimentCount negative_words (pyLowerChars text.data)) := by
  unfold analyze_sentiment
  split_ifs with h1 h2
  · exact ⟨Or.inl rfl, iff_of_true rfl h1,
      iff_of_false (by decide) (by omega),
      iff_of_false (by decide) (by omega)⟩
  · exact ⟨Or.inr (Or.inl rfl), iff_of_false (by decide) (by omega),
      iff_of_true rfl h2, iff_of_false (by decide) (by omega)⟩
  · exact ⟨Or.inr (Or.inr rfl), iff_of_false (by decide) (by omega),
      iff_of_false (by decide) (by omega), iff_of_true rfl (by omega)⟩

/-! ### C1 — `execute_sql_query` (src/13_database_agent.py)

SQLite rows are modelled as association lists of column name to SQL value;
running a query against the database is an explicit parameter `run`
(sqlite3 is external), whose `Except.error` case is an `sqlite3.Error`
with its message (the only exception the `try` block realistically
raises; the final generic `except Exception` re-formats other messages
the same way and is modelled by the same case). -/

/-- A SQLite value as returned by `cursor.fetchall()`. -/
inductive SqlValue where
  | int (n : Int)
  | real (q : Rat)
  | text (s : String)
  | null
deriving DecidableEq

/-- One result row: column name to value, as built by `dict(zip(columns, row))`. -/
def SqlRow : Type := List (String × SqlValue)

/-- `json.dumps` of one value. -/
def jsonValueStr : SqlValue → String
  | .int n => toString n
  | .real q => toString q
  | .text s => "\"" ++ s ++ "\""
  | .null => "null"

/-- `json.dumps` of one row dictionary at `indent=2`. -/
def jsonRowStr (r : SqlRow) : String :=
  "  \x7b\n" ++
    String.intercalate ",\n"
      (r.map (fun kv => "    \"" ++ kv.1 ++ "\": " ++ jsonValueStr kv.2)) ++
  "\n  \x7d"

/-- `json.dumps(results, indent=2)` for a (nonempty) list of rows: the
output always opens with `[`. -/
def jsonDumpsRows (rows : List SqlRow) : String :=
  "[\n" ++ String.intercalate ",\n" (rows.map jsonRowStr) ++ "\n]"

/-- The rejection message of `execute_sql_query`. -/
def errOnlySelect : String := "Error: Only SELECT queries are allowed for safety reasons."

/-- The `try` block of `execute_sql_query`: format the rows fetched by
`cursor.execute`/`fetchall` (or the caught error) as the returned string. -/
def sqlRunResult {DB : Type} (x : Except String (List SqlRow) × DB) : String × DB :=
  match x with
  | (Except.error e, db') => ("SQL Error: " ++ e, db')
  | (Except.ok rows, db') =>
    if rows.isEmpty then ("Query executed successfully but returned no results.", db')
    else (jsonDumpsRows rows, db')

/-- `execute_sql_query` from src/13_database_agent.py.  `DB` is the
SQLite database state; `run` executes a query against it (a SELECT leaves
the state unchanged or not — nothing is assumed). -/
def execute_sql_query {DB : Type} (run : String → DB → Except String (List SqlRow) × DB)
    (query : String) (db : DB) : String × DB :=
  if ¬ pyStartsWith (pyUpperChars (pyStripChars query.data)) "SELECT".data then
    (errOnlySelect, db)
  else
    sqlRunResult (run query db)

/-- Two strings whose first characters differ are distinct. -/
theorem String.ne_of_head_ne (a b : String) (h : a.data.head? ≠ b.data.head?) : a ≠ b :=
  fun e => h (by rw [e])

/-- The head character of a string append is the head of the left part. -/
theorem head_data_append (s t : String) (c : Char) (h : s.data.head? = some c) :
    (s ++ t).data.head? = some c := by
  rw [String.data_append]
  cases hs : s.data with
  | nil => rw [hs] at h; simp at h
  | cons x xs => rw [hs] at h; simpa using h

/-- C1: `execute_sql_query` returns the rejection message exactly when
`query.strip().upper()` does not start with `SELECT`, and in that case the
database state is untouched (no SQL is executed). -/
theorem execute_sql_query_guard {DB : Type}
    (run : String → DB → Except String (List SqlRow) × DB) (query : String) (db : DB) :
    ((execute_sql_query run query db).1 = errOnlySelect ↔
      pyStartsWith (pyUpperChars (pyStripChars query.data)) "SELECT".data = false) ∧
    (pyStartsWith (pyUpperChars (pyStripChars query.data)) "SELECT".data = false →
      execute_sql_query run query db = (errOnlySelect, db)) := by
  have hne : ∀ x : Except String (List SqlRow) × DB, (sqlRunResult x).1 ≠ errOnlySelect := by
    rintro ⟨e | rows, db'⟩
    · show ("SQL Error: " ++ e : String) ≠ errOnlySelect
      exact String.ne_of_head_ne _ _
        (by rw [head_data_append "SQL Error: " e 'S' rfl]; decide)
    · cases rows with
      | nil =>
        show ("Query executed successfully but returned no results." : String) ≠ errOnlySelect
        exact String.ne_of_head_ne _ _ (by decide)
      | cons r rs =>
        show jsonDumpsRows (r :: rs) ≠ errOnlySelect
        refine String.ne_of_head_ne _ _ ?_
        have h1 : (jsonDumpsRows (r :: rs)).data.head? = some '[' := by
          unfold jsonDumpsRows
          exact head_data_append _ _ '[' (head_data_append "[\n" _ '[' rfl)
        rw [h1]; decide
  unfold execute_sql_query
  by_cases hg : pyStartsWith (pyUpperChars (pyStripChars query.data)) "SELECT".data = true
  · simp only [hg, not_true_eq_false, if_false]
    exact ⟨⟨fun h => absurd h (hne _), fun h => absurd h (by decide)⟩,
      fun h => absurd h (by decide)⟩
  · have hg' : pyStartsWith (pyUpperChars (pyStripChars query.data)) "SELECT".data = false := by
      revert hg; cases pyStartsWith (pyUpperChars (pyStripChars query.data)) "SELECT".data <;> simp
    simp [hg']

/-- Witness for C1 at a concrete non-SELECT query: the guard rejects
`DROP TABLE products` and leaves the database untouched. -/
theorem execute_sql_query_guard_witness :
    @execute_sql_query Unit (fun _ db => (Except.ok [], db)) "DROP TABLE products" ()
      = (errOnlySelect, ()) :=
  (@execute_sql_query_guard Unit (fun _ db => (Except.ok [], db))
    "DROP TABLE products" ()).2 (by decide)

/-! ### C5 — `execute_python_code` (src/19_code_execution.py) -/

/-- What `execute_python_code` does with the submitted code: either it is
rejected by the denylist (no subprocess is spawned) or it is written to a
temp file and handed to a subprocess. -/
inductive PyExecOutcome where
  | securityError (msg : String)
  | subprocessRun (code : String)
deriving DecidableEq

/-- `dangerous_patterns` from `execute_python_code`. -/
def dangerous_patterns : List String :=
  ["import os", "import subprocess", "import sys", "__import__", "eval(",
   "exec(", "compile(", "open(", "file(", "input(", "raw_input("]

/-- `execute_python_code` from src/19_code_execution.py: the `for` loop
returns on the first pattern contained in `code.lower()`; otherwise the
code goes to `subprocess.run`. -/
def execute_python_code (code : String) : PyExecOutcome :=
  match dangerous_patterns.find? (fun p => pyContains (pyLowerChars code.data) p.data) with
  | some p =>
    .securityError ("⚠️ Security Error: Code contains potentially dangerous operation: " ++ p)
  | none => .subprocessRun code

/-- C5: `execute_python_code` returns a message beginning
`⚠️ Security Error` and spawns no subprocess exactly when `code.lower()`
contains one of the denylisted substrings; every other code string is
handed to a subprocess. -/
theorem execute_python_code_denylist (code : String) :
    ((∃ p ∈ dangerous_patterns, pyContains (pyLowerChars code.data) p.data = true) ↔
      ∃ m, execute_python_code code = .securityError m ∧
        pyStartsWith m.data "⚠️ Security Error".data = true) ∧
    ((∀ p ∈ dangerous_patterns, pyContains (pyLowerChars code.data) p.data = false) →
      execute_python_code code = .subprocessRun code) := by
  unfold execute_python_code
  constructor
  · constructor
    · intro h
      have hs : (dangerous_patterns.find?
          (fun p => pyContains (pyLowerChars code.data) p.data)).isSome := by
        rw [List.find?_isSome]
        rcases h with ⟨p, hp, hc⟩
        exact ⟨p, hp, hc⟩
      rcases Option.isSome_iff_exists.mp hs with ⟨p, hp⟩
      refine ⟨"⚠️ Security Error: Code contains potentially dangerous operation: " ++ p,
        by rw [hp], ?_⟩
      have hpre : ("⚠️ Security Error".data) <+:
          ("⚠️ Security Error: Code contains potentially dangerous operation: " ++ p).data := by
        rw [String.data_append]
        exact List.IsPrefix.trans (by decide) (List.prefix_append _ _)
      unfold pyStartsWith
      exact List.isPrefixOf_iff_prefix.mpr hpre
    · rintro ⟨m, hm, _⟩
      cases hf : dangerous_patterns.find? (fun p => pyContains (pyLowerChars code.data) p.data) with
      | none => rw [hf] at hm; simp at hm
      | some p =>
        have hp := List.find?_some hf
        have hmem := List.mem_of_find?_eq_some hf
        exact ⟨p, hmem, hp⟩
  · intro h
    have hf : dangerous_patterns.find?
        (fun p => pyContains (pyLowerChars code.data) p.data) = none := by
      rw [List.find?_eq_none]
      intro p hp
      rw [h p hp]
      exact Bool.false_ne_true
    rw [hf]

/-- Witness for C5: `print(2+2)` matches no denylisted substring and is
handed to the subprocess. -/
theorem execute_python_code_denylist_witness :
    execute_python_code "print(2+2)" = .subprocessRun "print(2+2)" :=
  (execute_python_code_denylist "print(2+2)").2 (by decide)

/-! ### C8 — `setup_database` (src/13_database_agent.py)

The two tables are modelled as typed row lists (`Option` distinguishes a
missing table from an empty one); `CREATE TABLE IF NOT EXISTS`, `DELETE`
and `executemany INSERT` act on that state.  A pre-existing table is
assumed to carry this schema (a schema mismatch would abort the script
with an exception, so `setup_database` would not complete). -/

/-- A row of the `products` table. -/
structure SqlProduct where
  id : Int
  name : String
  category : String
  price : Rat
  stock : Int
deriving DecidableEq

/-- A row of the `orders` table. -/
structure SqlOrder where
  id : Int
  product_id : Int
  quantity : Int
  customer_name : String
  order_date : String
deriving DecidableEq

/-- The `ecommerce.db` state: each table is absent or holds its rows. -/
structure EcommerceDB where
  products : Option (List SqlProduct)
  orders : Option (List SqlOrder)
deriving DecidableEq

/-- The 8 hardcoded sample products of `setup_database`. -/
def sample_products : List SqlProduct :=
  [⟨1, "Laptop Pro", "Electronics", 1299.99, 15⟩,
   ⟨2, "Wireless Mouse", "Electronics", 29.99, 100⟩,
   ⟨3, "USB-C Cable", "Accessories", 19.99, 200⟩,
   ⟨4, "Desk Chair", "Furniture", 299.99, 25⟩,
   ⟨5, "Monitor 27\"", "Electronics", 399.99, 30⟩,
   ⟨6, "Keyboard Mechanical", "Electronics", 149.99, 45⟩,
   ⟨7, "Desk Lamp", "Furniture", 59.99, 60⟩,
   ⟨8, "Notebook Set", "Stationery", 12.99, 150⟩]

/-- The 8 hardcoded sample orders of `setup_database`. -/
def sample_orders : List SqlOrder :=
  [⟨1, 1, 2, "Alice Johnson", "2025-10-01"⟩,
   ⟨2, 2, 5, "Bob Smith", "2025-10-01"⟩,
   ⟨3, 5, 1, "Alice Johnson", "2025-10-02"⟩,
   ⟨4, 4, 3, "Carol White", "2025-10-02"⟩,
   ⟨5, 1, 1, "David Brown", "2025-10-03"⟩,
   ⟨6, 6, 2, "Alice Johnson", "2025-10-03"⟩,
   ⟨7, 3, 10, "Bob Smith", "2025-10-04"⟩,
   ⟨8, 7, 4, "Eve Davis", "2025-10-04"⟩]

/-- `setup_database` from src/13_database_agent.py: create the two tables
if absent, clear both, then insert the sample rows. -/
def setup_database (db : EcommerceDB) : EcommerceDB :=
  let db1 : EcommerceDB := { db with products := some (db.products.getD []) }
  let db2 : EcommerceDB := { db1 with orders := some (db1.orders.getD []) }
  let db3 : EcommerceDB := { db2 with orders := some [] }
  let db4 : EcommerceDB := { db3 with products := some [] }
  let db5 : EcommerceDB :=
    { db4 with products := some ((db4.products.getD []) ++ sample_products) }
  { db5 with orders := some ((db5.orders.getD []) ++ sample_orders) }

/-- C8: whatever the pre-existing contents of `ecommerce.db`, after
`setup_database` the `products` table holds exactly the 8 sample products
and the `orders` table exactly the 8 sample orders. -/
theorem setup_database_fresh (db : EcommerceDB) :
    setup_database db = ⟨some sample_products, some sample_orders⟩ := rfl

/-! ### C2 — `MemoryManager.add_conversation` (src/09_memory_context.py) -/

/-- One conversation-history entry (`timestamp` is the
`datetime.now().isoformat()` string, supplied by the caller here because
the clock is external). -/
structure ConvEntry where
  role : String
  message : String
  timestamp : String
deriving DecidableEq

/-- `MemoryManager.add_conversation`: append the entry, then keep only the
last 50 messages (`[-50:]`). -/
def add_conversation (history : List ConvEntry) (role message ts : String) : List ConvEntry :=
  pyLastN 50 (history ++ [⟨role, message, ts⟩])

/-- `pyLastN n` keeps at most `n` elements. -/
theorem pyLastN_length_le (n : Nat) (l : List α) : (pyLastN n l).length ≤ n := by
  unfold pyLastN
  rw [List.length_drop]
  omega

/-- When the right part is long enough, the last `n` elements of an append
are the last `n` of the right part. -/
theorem pyLastN_append_of_le (n : Nat) (a b : List α) (h : n ≤ b.length) :
    pyLastN n (a ++ b) = pyLastN n b := by
  unfold pyLastN
  rw [List.length_append]
  have harith : a.length + b.length - n = a.length + (b.length - n) := by omega
  rw [harith, List.drop_append]

/-- Truncating to the last `n` before appending more does not change the
last `n` of the whole. -/
theorem pyLastN_lastN_append (n : Nat) (l m : List α) :
    pyLastN n (pyLastN n l ++ m) = pyLastN n (l ++ m) := by
  by_cases h : l.length ≤ n
  · have : l.length - n = 0 := by omega
    unfold pyLastN
    rw [this, List.drop_zero]
  · have hsplit : l = l.take (l.length - n) ++ pyLastN n l := (List.take_append_drop _ l).symm
    have hlen : (pyLastN n l).length = n := by
      unfold pyLastN; rw [List.length_drop]; omega
    conv_rhs => rw [hsplit]
    rw [List.append_assoc]
    rw [pyLastN_append_of_le n _ (pyLastN n l ++ m) (by rw [List.length_append, hlen]; omega)]

/-- Folding `add_conversation` over a message sequence from a history that
is already within the bound yields the last 50 of history-plus-messages. -/
theorem foldl_add_conversation (es : List ConvEntry) :
    ∀ h : List ConvEntry, h.length ≤ 50 →
      List.foldl (fun acc e => add_conversation acc e.role e.message e.timestamp) h es
        = pyLastN 50 (h ++ es) := by
  induction es with
  | nil =>
    intro h hh
    simp only [List.foldl_nil, List.append_nil]
    unfold pyLastN
    have : h.length - 50 = 0 := by omega
    rw [this, List.drop_zero]
  | cons e es ih =>
    intro h hh
    rw [List.foldl_cons]
    have hstep : add_conversation h e.role e.message e.timestamp
        = pyLastN 50 (h ++ [e]) := rfl
    rw [hstep, ih _ (pyLastN_length_le 50 _), pyLastN_lastN_append 50 (h ++ [e]) es,
      List.append_assoc]
    rfl

/-- C2: starting from a fresh (empty) history, after any sequence of
`add_conversation` calls the conversation history is exactly the last 50
entries added (all of them when fewer than 50), newest last, and its
length never exceeds 50. -/
theorem add_conversation_bound (es : List ConvEntry) :
    List.foldl (fun acc e => add_conversation acc e.role e.message e.timestamp) [] es
      = es.drop (es.length - 50) ∧
    (List.foldl (fun acc e => add_conversation acc e.role e.message e.timestamp) [] es).length
      ≤ 50 := by
  have h := foldl_add_conversation es [] (by simp)
  rw [List.nil_append] at h
  refine ⟨h, ?_⟩
  rw [h]
  have := pyLastN_length_le 50 es
  unfold pyLastN at this
  exact this

/-! ### C6 — `MemoryManager.load_memory` (src/09_memory_context.py)

The per-user file pair is modelled explicitly: the slot for
`agent_memory/{user_id}_memory.json` and the slot for the
`.json.backup` path `rename` targets.  `json.load` is the external
parameter `parse` (`none` models a `JSONDecodeError`/`ValueError`), and
`datetime.now().isoformat()` is the parameter `createdAt`. -/

/-- A JSON value. -/
inductive Json where
  | null
  | bool (b : Bool)
  | num (q : Rat)
  | str (s : String)
  | arr (elems : List Json)
  | obj (fields : List (String × Json))

/-- The contents of the two files `load_memory` can touch. -/
structure MemoryFS where
  memFile : Option String
  backupFile : Option String
deriving DecidableEq

/-- The fresh memory dictionary `load_memory` builds. -/
def freshMemory (user_id createdAt : String) : Json :=
  .obj [("user_id", .str user_id), ("preferences", .obj []),
        ("conversation_history", .arr []), ("facts", .obj []),
        ("created_at", .str createdAt), ("last_interaction", .null)]

/-- `MemoryManager.load_memory` from src/09_memory_context.py. -/
def load_memory (parse : String → Option Json) (user_id createdAt : String)
    (fs : MemoryFS) : Json × MemoryFS :=
  match fs.memFile with
  | some content =>
    match parse content with
    | some j => (j, fs)
    | none =>
      (freshMemory user_id createdAt, { memFile := none, backupFile := some content })
  | none => (freshMemory user_id createdAt, fs)

/-- C6: `load_memory` returns the parsed file contents unchanged when the
file exists and parses; on a decode error it renames the file to the
backup path and returns a fresh dictionary with empty preferences, empty
facts, empty conversation history and `last_interaction` None; when the
file does not exist it returns the same fresh dictionary without touching
the filesystem. -/
theorem load_memory_cases (parse : String → Option Json) (user_id createdAt : String)
    (fs : MemoryFS) (content : String) (j : Json) :
    (fs.memFile = some content → parse content = some j →
      load_memory parse user_id createdAt fs = (j, fs)) ∧
    (fs.memFile = some content → parse content = none →
      load_memory parse user_id createdAt fs =
        (Json.obj [("user_id", .str user_id), ("preferences", .obj []),
                   ("conversation_history", .arr []), ("facts", .obj []),
                   ("created_at", .str createdAt), ("last_interaction", .null)],
         { memFile := none, backupFile := some content })) ∧
    (fs.memFile = none →
      load_memory parse user_id createdAt fs =
        (Json.obj [("user_id", .str user_id), ("preferences", .obj []),
                   ("conversation_history", .arr []), ("facts", .obj []),
                   ("created_at", .str createdAt), ("last_interaction", .null)],
         fs)) := by
  refine ⟨fun hm hp => ?_, fun hm hp => ?_, fun hm => ?_⟩
  · simp [load_memory, hm, hp]
  · simp [load_memory, hm, hp, freshMemory]
  · simp [load_memory, hm, freshMemory]

/-- Witness for C6 at a corrupted file: parsing fails, so the file is
renamed to the backup slot and a fresh dictionary is returned. -/
theorem load_memory_cases_witness :
    load_memory (fun _ => none) "alice" "2025-10-05T12:00:00"
        { memFile := some "not json", backupFile := none } =
      (Json.obj [("user_id", .str "alice"), ("preferences", .obj []),
                 ("conversation_history", .arr []), ("facts", .obj []),
                 ("created_at", .str "2025-10-05T12:00:00"), ("last_interaction", .null)],
       { memFile := none, backupFile := some "not json" }) :=
  (load_memory_cases (fun _ => none) "alice" "2025-10-05T12:00:00"
    { memFile := some "not json", backupFile := none } "not json" Json.null).2.1 rfl rfl

/-! ### C7 — the `POST /chat` route (src/04_fastapi_chatbot.py)

The route handler is modelled over an abstract agent type `A`: `newAgent`
is the `Agent(system_prompt=...)` constructor result, `callAgent` invokes
the agent on the message (its `Except.error` case is the exception caught
by the handler's `except Exception`, carrying `str(e)`; its `ok` payload
is `None` or the response, which `str(...)` turns into the returned
text).  `sessions` is the module-level dict, `now` the `datetime.now()`
value stored beside a newly created agent. -/

/-- An HTTP JSON response: status code plus JSON-object body. -/
structure HttpResponse where
  status : Nat
  body : List (String × Json)

/-- The agent the handler uses: the session's stored agent, or a fresh
one when the session id is unknown. -/
def chatAgent {A : Type} (newAgent : A) (sessions : List (String × (A × String)))
    (session_id : String) : A :=
  match sessions.lookup session_id with
  | some (a, _) => a
  | none => newAgent

/-- The `chat` handler from src/04_fastapi_chatbot.py: get or create the
session, call the agent, and answer 200 with the response text (or 500
with the formatted exception). -/
def chat {A : Type} (newAgent : A)
    (callAgent : A → String → Except String (Option String)) (now : String)
    (sessions : List (String × (A × String))) (message session_id : String) :
    HttpResponse × List (String × (A × String)) :=
  let sessions' :=
    if (sessions.lookup session_id).isSome then sessions
    else sessions ++ [(session_id, (newAgent, now))]
  match callAgent (chatAgent newAgent sessions session_id) message with
  | Except.ok r =>
    let response_text := match r with
      | some s => s
      | none => "I apologize, but I couldn't generate a response."
    ({ status := 200,
       body := [("response", .str response_text), ("session_id", .str session_id)] },
     sessions')
  | Except.error e => ({ status := 500, body := [("error", .str e)] }, sessions')

/-- C7 counterexample: at a concrete successful request the 200 body is
not the single-field object `{"response": str}` — it also carries
`session_id`. -/
theorem chat_body_not_single_field :
    (@chat Unit () (fun _ _ => Except.ok (some "Hello!")) "t" [] "hi" "s1").1
      = { status := 200,
          body := [("response", .str "Hello!"), ("session_id", .str "s1")] } ∧
    ((@chat Unit () (fun _ _ => Except.ok (some "Hello!")) "t" [] "hi" "s1").1.body.map
        Prod.fst ≠ ["response"]) := by
  exact ⟨rfl, by decide⟩

/-- C7 (amended): on success the handler answers 200 with the JSON object
`{"response": str, "session_id": str}`; when the agent call raises, it
answers 500 with the formatted error string. -/
theorem chat_response_shape {A : Type} (newAgent : A)
    (callAgent : A → String → Except String (Option String)) (now : String)
    (sessions : List (String × (A × String))) (message session_id : String) :
    (∀ r, callAgent (chatAgent newAgent sessions session_id) message = Except.ok r →
      ∃ s : String,
        (chat newAgent callAgent now sessions message session_id).1 =
          { status := 200,
            body := [("response", .str s), ("session_id", .str session_id)] }) ∧
    (∀ e, callAgent (chatAgent newAgent sessions session_id) message = Except.error e →
      (chat newAgent callAgent now sessions message session_id).1 =
        { status := 500, body := [("error", .str e)] }) := by
  constructor
  · intro r hr
    unfold chat
    rw [hr]
    cases r with
    | some s => exact ⟨s, rfl⟩
    | none => exact ⟨"I apologize, but I couldn't generate a response.", rfl⟩
  · intro e he
    unfold chat
    rw [he]

/-- Witness for C7 (amended) at a concrete successful request. -/
theorem chat_response_shape_witness :
    ∃ s : String,
      (@chat Unit () (fun _ _ => Except.ok (some "Hello!")) "t" [] "hi" "s1").1 =
        { status := 200, body := [("response", .str s), ("session_id", .str "s1")] } :=
  (@chat_response_shape Unit () (fun _ _ => Except.ok (some "Hello!"))
    "t" [] "hi" "s1").1 (some "Hello!") rfl

/-! ### C3 — `DocumentChunker.chunk_text` (src/12_rag_pipeline.py)

The `while` loop is embedded as a step function plus a fuel-indexed loop:
`chunkLoop ... fuel start chunks = none` means the loop has not finished
within `fuel` iterations, so `∀ fuel, ... = none` is non-termination.
Python slice semantics (negative indices, clamping) and `str.rfind` are
embedded exactly; the chunk's `id` field (an md5 prefix from `hashlib`,
a pure function of `text`) is omitted. -/

/-- Python slice `l[a:b]` with full index semantics: negative indices
count from the end, and both bounds clamp to `[0, len]`. -/
def pySlice (l : List Char) (a b : Int) : List Char :=
  let n : Int := l.length
  let a' : Int := if a < 0 then max (n + a) 0 else min a n
  let b' : Int := if b < 0 then max (n + b) 0 else min b n
  (l.take b'.toNat).drop a'.toNat

/-- Python `str.rfind(c)` for a single character: index of the last
occurrence, `-1` when absent. -/
def rfindChar : List Char → Char → Int
  | [], _ => -1
  | c :: cs, target =>
    let r := rfindChar cs target
    if r ≥ 0 then r + 1 else if c == target then 0 else -1

/-- One chunk record (the md5-derived `id` field is omitted). -/
structure TextChunk where
  text : List Char
  start : Int
  stop : Int
  length : Nat
deriving DecidableEq

/-- The adjusted chunk end: `end = start + chunk_size`, pulled back to
just after the last sentence boundary (`.` or newline) in the window when
one occurs at a positive window index (`boundary > 0`). -/
def chunkEnd (text : List Char) (chunk_size start : Int) : Int :=
  if start + chunk_size < (text.length : Int) then
    if max (rfindChar (pySlice text start (start + chunk_size)) '.')
        (rfindChar (pySlice text start (start + chunk_size)) '\n') > 0 then
      start + max (rfindChar (pySlice text start (start + chunk_size)) '.')
        (rfindChar (pySlice text start (start + chunk_size)) '\n') + 1
    else start + chunk_size
  else start + chunk_size

/-- One iteration of the `while start < len(text)` loop of `chunk_text`:
returns the next `start` (`end - overlap` when `end < len(text)`, else
`end`) and the updated chunk list (the stripped window, when nonempty). -/
def chunkBody (text : List Char) (chunk_size overlap : Int) (start : Int)
    (chunks : List TextChunk) : Int × List TextChunk :=
  (if chunkEnd text chunk_size start < (text.length : Int) then
     chunkEnd text chunk_size start - overlap
   else chunkEnd text chunk_size start,
   if (pyStripChars (pySlice text start (chunkEnd text chunk_size start))).isEmpty then
     chunks
   else
     chunks ++ [⟨pyStripChars (pySlice text start (chunkEnd text chunk_size start)), start,
                 chunkEnd text chunk_size start,
                 (pyStripChars (pySlice text start (chunkEnd text chunk_size start))).length⟩])

/-- The `while` loop of `chunk_text`, indexed by fuel; `none` means the
loop is still running after `fuel` iterations. -/
def chunkLoop (text : List Char) (chunk_size overlap : Int) :
    Nat → Int → List TextChunk → Option (List TextChunk)
  | 0, _, _ => none
  | fuel + 1, start, chunks =>
    if start < (text.length : Int) then
      let s := chunkBody text chunk_size overlap start chunks
      chunkLoop text chunk_size overlap fuel s.1 s.2
    else some chunks

/-- `DocumentChunker.chunk_text` (fuel-indexed): start at 0 with no
chunks.  The repository calls it with `chunk_size=500, overlap=50`. -/
def chunk_text (text : String) (chunk_size overlap : Int) (fuel : Nat) :
    Option (List TextChunk) :=
  chunkLoop text.data chunk_size overlap fuel 0 []

/-- A text on which `chunk_text 500 50` never advances: the last sentence
boundary in the 500-character window sits at index 49, so
`start = end - overlap = 0 + 49 + 1 - 50 = 0` forever. -/
def chunkTrapText : List Char :=
  List.replicate 49 'x' ++ ['.'] ++ List.replicate 500 'y'

/-- The first loop-state component of `chunkBody` ignores the accumulated
chunks. -/
theorem chunkBody_fst (text : List Char) (cs ov start : Int) (chunks : List TextChunk) :
    (chunkBody text cs ov start chunks).1 = (chunkBody text cs ov start []).1 := rfl

/-- `rfind` of a character absent from a replicate run. -/
theorem rfindChar_replicate (n : Nat) (c d : Char) (h : (d == c) = false) :
    rfindChar (List.replicate n d) c = -1 := by
  induction n with
  | zero => rfl
  | succ m ih =>
    rw [List.replicate_succ]
    unfold rfindChar
    rw [ih, h]
    decide

/-- `rfind` never returns anything below `-1`. -/
theorem rfindChar_ge (l : List Char) (c : Char) : -1 ≤ rfindChar l c := by
  induction l with
  | nil => unfold rfindChar; omega
  | cons x xs ih =>
    unfold rfindChar
    by_cases h : rfindChar xs c ≥ 0
    · simp only [h, if_true]; omega
    · simp only [h, if_false]
      by_cases hx : (x == c) = true
      · simp [hx]
      · simp only [hx, if_false]
        omega

/-- Unfolding equation: `rfind` on a cons. -/
theorem rfindChar_cons (x : Char) (xs : List Char) (c : Char) :
    rfindChar (x :: xs) c =
      if rfindChar xs c ≥ 0 then rfindChar xs c + 1
      else if x == c then 0 else -1 := rfl

/-- `rfind` on an append: the right part wins when it contains the
character. -/
theorem rfindChar_append (l₁ l₂ : List Char) (c : Char) :
    rfindChar (l₁ ++ l₂) c =
      if rfindChar l₂ c ≥ 0 then l₁.length + rfindChar l₂ c else rfindChar l₁ c := by
  induction l₁ with
  | nil =>
    have hg := rfindChar_ge l₂ c
    by_cases h : rfindChar l₂ c ≥ 0
    · rw [List.nil_append, if_pos h]; simp
    · rw [List.nil_append, if_neg h]
      show rfindChar l₂ c = -1
      omega
  | cons x xs ih =>
    rw [List.cons_append, rfindChar_cons, ih, rfindChar_cons]
    have hgl := rfindChar_ge l₂ c
    have hgx := rfindChar_ge xs c
    simp only [List.length_cons]
    push_cast
    split_ifs <;> omega

/-- The length of the trap text. -/
theorem chunkTrapText_length : chunkTrapText.length = 550 := by
  unfold chunkTrapText
  rw [List.append_assoc, List.length_append, List.length_replicate, List.length_append,
    List.length_replicate]
  rfl

/-- The 500-character window of the trap text at `start = 0`. -/
theorem chunkTrap_window : pySlice chunkTrapText 0 500 =
    List.replicate 49 'x' ++ ['.'] ++ List.replicate 450 'y' := by
  have hsplit : chunkTrapText =
      (List.replicate 49 'x' ++ ['.'] ++ List.replicate 450 'y') ++ List.replicate 50 'y' := by
    unfold chunkTrapText
    rw [List.append_assoc, List.append_assoc, List.append_assoc, ← List.replicate_add]
  have hlen500 : (List.replicate 49 'x' ++ ['.'] ++ List.replicate 450 'y').length = 500 := by
    rw [List.append_assoc, List.length_append, List.length_replicate, List.length_append,
      List.length_replicate]
    rfl
  unfold pySlice
  rw [chunkTrapText_length]
  norm_num
  rw [hsplit, show ((500 : Int)).toNat = 500 from rfl, List.take_left' hlen500,
    List.append_assoc]
  rfl

/-- `rfind '.'` in the trap window: index 49. -/
theorem chunkTrap_rfind_period : rfindChar (pySlice chunkTrapText 0 500) '.' = 49 := by
  have hA : rfindChar (List.replicate 450 'y') '.' = -1 :=
    rfindChar_replicate 450 '.' 'y' (by decide)
  have hB : rfindChar (['.'] ++ List.replicate 450 'y') '.' = 0 := by
    rw [rfindChar_append, hA, if_neg (by omega)]
    decide
  rw [chunkTrap_window, List.append_assoc, rfindChar_append, hB, if_pos (by omega),
    List.length_replicate]
  norm_num

/-- `rfind '\n'` in the trap window: absent. -/
theorem chunkTrap_rfind_newline : rfindChar (pySlice chunkTrapText 0 500) '\n' = -1 := by
  have hA : rfindChar (List.replicate 450 'y') '\n' = -1 :=
    rfindChar_replicate 450 '\n' 'y' (by decide)
  have hB : rfindChar (['.'] ++ List.replicate 450 'y') '\n' = -1 := by
    rw [rfindChar_append, hA, if_neg (by omega)]
    decide
  rw [chunkTrap_window, List.append_assoc, rfindChar_append, hB, if_neg (by omega),
    rfindChar_replicate 49 '\n' 'x' (by decide)]

/-- On the trap text the adjusted end of the first window is 50. -/
theorem chunkTrap_end : chunkEnd chunkTrapText 500 0 = 50 := by
  unfold chunkEnd
  have h0 : ((0 : Int) + 500) = 500 := by norm_num
  rw [h0, chunkTrapText_length, chunkTrap_rfind_period, chunkTrap_rfind_newline]
  norm_num

/-- On the trap text, one loop iteration maps `start = 0` back to
`start = 0` (`end - overlap = 50 - 50`). -/
theorem chunkBody_trap_fst (chunks : List TextChunk) :
    (chunkBody chunkTrapText 500 50 0 chunks).1 = 0 := by
  unfold chunkBody
  dsimp only
  rw [chunkTrap_end, chunkTrapText_length]
  norm_num

/-- C3 is a code bug: on `chunkTrapText` the `chunk_text` loop never
terminates — no amount of fuel finishes it (`start` stays 0 forever). -/
theorem chunk_text_diverges_on_trap :
    ∀ fuel : Nat, chunk_text (String.mk chunkTrapText) 500 50 fuel = none := by
  have key : ∀ fuel : Nat, ∀ chunks : List TextChunk,
      chunkLoop chunkTrapText 500 50 fuel 0 chunks = none := by
    intro fuel
    induction fuel with
    | zero => intro chunks; rfl
    | succ m ih =>
      intro chunks
      show (if (0 : Int) < (chunkTrapText.length : Int) then
          chunkLoop chunkTrapText 500 50 m (chunkBody chunkTrapText 500 50 0 chunks).1
            (chunkBody chunkTrapText 500 50 0 chunks).2
        else some chunks) = none
      rw [if_pos (by rw [chunkTrapText_length]; norm_num), chunkBody_trap_fst chunks]
      exact ih _
  intro fuel
  unfold chunk_text
  exact key fuel []

/-! ### C4 / C9 — `SimpleVectorStore` (src/12_rag_pipeline.py)

A Python dict is an insertion-ordered association list; `dictUpdate`
models `m[k] = f(m[k])` (with `v₀` when the key is new), which covers
both `self.index[word].append(doc_id)` (after `index[word] = []` for a
new word) and `scores[doc_id] = scores.get(doc_id, 0) + 1`. -/

/-- Ordered-dict lookup (`k in m` / `m[k]`). -/
def dictLookup [DecidableEq κ] (m : List (κ × β)) (k : κ) : Option β :=
  match m with
  | [] => none
  | (k', v) :: rest => if k' = k then some v else dictLookup rest k

/-- Ordered-dict update: replace in place, or append a new key at the
end (Python dict insertion order). -/
def dictUpdate [DecidableEq κ] (m : List (κ × β)) (k : κ) (f : β → β) (v₀ : β) :
    List (κ × β) :=
  match m with
  | [] => [(k, v₀)]
  | (k', v) :: rest => if k' = k then (k', f v) :: rest else (k', v) :: dictUpdate rest k f v₀

theorem dictLookup_nil [DecidableEq κ] (k : κ) :
    dictLookup ([] : List (κ × β)) k = none := rfl

theorem dictLookup_cons [DecidableEq κ] (k' : κ) (v : β) (rest : List (κ × β)) (k : κ) :
    dictLookup ((k', v) :: rest) k = if k' = k then some v else dictLookup rest k := rfl

theorem dictUpdate_nil [DecidableEq κ] (k : κ) (f : β → β) (v₀ : β) :
    dictUpdate ([] : List (κ × β)) k f v₀ = [(k, v₀)] := rfl

theorem dictUpdate_cons [DecidableEq κ] (k' : κ) (v : β) (rest : List (κ × β)) (k : κ)
    (f : β → β) (v₀ : β) :
    dictUpdate ((k', v) :: rest) k f v₀ =
      if k' = k then (k', f v) :: rest else (k', v) :: dictUpdate rest k f v₀ := rfl

theorem dictLookup_update_self [DecidableEq κ] (m : List (κ × β)) (k : κ) (f : β → β)
    (v₀ : β) :
    dictLookup (dictUpdate m k f v₀) k =
      some (match dictLookup m k with | some v => f v | none => v₀) := by
  induction m with
  | nil => rw [dictUpdate_nil, dictLookup_cons, if_pos rfl, dictLookup_nil]
  | cons kv rest ih =>
    obtain ⟨k', v⟩ := kv
    by_cases h : k' = k
    · rw [dictUpdate_cons, if_pos h, dictLookup_cons, if_pos h, dictLookup_cons, if_pos h]
    · rw [dictUpdate_cons, if_neg h, dictLookup_cons, if_neg h, dictLookup_cons, if_neg h, ih]

theorem dictLookup_update_ne [DecidableEq κ] (m : List (κ × β)) (k k' : κ) (f : β → β)
    (v₀ : β) (hne : k' ≠ k) :
    dictLookup (dictUpdate m k f v₀) k' = dictLookup m k' := by
  have hne' : ¬ (k = k') := fun e => hne e.symm
  induction m with
  | nil => rw [dictUpdate_nil, dictLookup_cons, if_neg hne', dictLookup_nil]
  | cons kv rest ih =>
    obtain ⟨k'', v⟩ := kv
    by_cases h : k'' = k
    · have h2 : ¬ (k'' = k') := by rw [h]; exact hne'
      rw [dictUpdate_cons, if_pos h, dictLookup_cons, if_neg h2, dictLookup_cons, if_neg h2]
    · by_cases h3 : k'' = k'
      · rw [dictUpdate_cons, if_neg h, dictLookup_cons, if_pos h3, dictLookup_cons, if_pos h3]
      · rw [dictUpdate_cons, if_neg h, dictLookup_cons, if_neg h3, dictLookup_cons,
          if_neg h3, ih]

theorem dictLookup_isSome_iff_mem_keys [DecidableEq κ] (m : List (κ × β)) (k : κ) :
    (dictLookup m k).isSome ↔ k ∈ m.map Prod.fst := by
  induction m with
  | nil => simp [dictLookup_nil]
  | cons kv rest ih =>
    obtain ⟨k', v⟩ := kv
    rw [dictLookup_cons]
    by_cases h : k' = k
    · simp [h]
    · have h' : ¬ (k = k') := fun e => h e.symm
      simp [h, h', ih]

theorem dictUpdate_keys [DecidableEq κ] (m : List (κ × β)) (k : κ) (f : β → β) (v₀ : β) :
    (dictUpdate m k f v₀).map Prod.fst =
      if k ∈ m.map Prod.fst then m.map Prod.fst else m.map Prod.fst ++ [k] := by
  induction m with
  | nil => simp [dictUpdate_nil]
  | cons kv rest ih =>
    obtain ⟨k', v⟩ := kv
    by_cases h : k' = k
    · rw [dictUpdate_cons, if_pos h]
      have hmem : k ∈ ((k', v) :: rest).map Prod.fst := by simp [h]
      rw [if_pos hmem]
      simp
    · have h' : ¬ (k = k') := fun e => h e.symm
      rw [dictUpdate_cons, if_neg h]
      by_cases h2 : k ∈ rest.map Prod.fst
      · have hmem : k ∈ ((k', v) :: rest).map Prod.fst := by simp [h2]
        rw [if_pos hmem]
        simp only [List.map_cons]
        rw [ih, if_pos h2]
      · have hmem : k ∉ ((k', v) :: rest).map Prod.fst := by simp [h', h2]
        rw [if_neg hmem]
        simp only [List.map_cons, List.cons_append]
        rw [ih, if_neg h2]

theorem dictUpdate_keys_nodup [DecidableEq κ] (m : List (κ × β)) (k : κ) (f : β → β)
    (v₀ : β) (h : (m.map Prod.fst).Nodup) :
    ((dictUpdate m k f v₀).map Prod.fst).Nodup := by
  rw [dictUpdate_keys]
  by_cases hk : k ∈ m.map Prod.fst
  · simpa [hk] using h
  · simp only [hk, if_false]
    exact List.Nodup.append h (List.nodup_singleton k) (by simpa using hk)

theorem mem_of_dictLookup_eq_some [DecidableEq κ] (m : List (κ × β)) (k : κ) (v : β)
    (h : dictLookup m k = some v) : (k, v) ∈ m := by
  induction m with
  | nil => rw [dictLookup_nil] at h; exact absurd h (by simp)
  | cons kv rest ih =>
    obtain ⟨k', v'⟩ := kv
    by_cases he : k' = k
    · rw [dictLookup_cons, if_pos he] at h
      obtain rfl := he
      obtain rfl : v' = v := by simpa using h
      exact List.mem_cons_self _ _
    · rw [dictLookup_cons, if_neg he] at h
      exact List.mem_cons_of_mem _ (ih h)

theorem dictLookup_eq_some_of_mem [DecidableEq κ] (m : List (κ × β)) (k : κ) (v : β)
    (hnd : (m.map Prod.fst).Nodup) (h : (k, v) ∈ m) : dictLookup m k = some v := by
  induction m with
  | nil => exact absurd h (by simp)
  | cons kv rest ih =>
    obtain ⟨k', v'⟩ := kv
    rcases List.mem_cons.mp h with heq | hmem
    · injection heq with h1 h2
      subst h1
      subst h2
      rw [dictLookup_cons, if_pos rfl]
    · have hk : k' ≠ k := by
        intro e
        have hin : k ∈ rest.map Prod.fst := List.mem_map.mpr ⟨(k, v), hmem, rfl⟩
        rw [← e] at hin
        exact (List.nodup_cons.mp (by simpa using hnd)).1 hin
      rw [dictLookup_cons, if_neg hk]
      exact ih (List.nodup_cons.mp (by simpa using hnd)).2 hmem

/-- Folding `dictUpdate` over a duplicate-free key list: each key of the
list is written exactly once. -/
theorem dictLookup_foldl_update [DecidableEq κ] (ks : List κ) (f : β → β) (v₀ : β) :
    ∀ (m : List (κ × β)) (k : κ), ks.Nodup →
      dictLookup (ks.foldl (fun m' k' => dictUpdate m' k' f v₀) m) k =
        if k ∈ ks then
          some (match dictLookup m k with | some v => f v | none => v₀)
        else dictLookup m k := by
  induction ks with
  | nil => intro m k _; simp
  | cons k₀ ks ih =>
    intro m k hnd
    rw [List.foldl_cons]
    have hk₀ : k₀ ∉ ks := (List.nodup_cons.mp hnd).1
    by_cases he : k = k₀
    · subst he
      rw [ih _ k (List.nodup_cons.mp hnd).2, if_neg hk₀, if_pos (List.mem_cons_self _ _),
        dictLookup_update_self]
    · rw [ih _ k (List.nodup_cons.mp hnd).2,
        dictLookup_update_ne _ _ _ _ _ he]
      by_cases hin : k ∈ ks
      · rw [if_pos hin, if_pos (List.mem_cons_of_mem _ hin)]
      · rw [if_neg hin, if_neg (by simp [he, hin])]

/-- Folding `dictUpdate` preserves duplicate-free keys. -/
theorem dictUpdate_foldl_keys_nodup [DecidableEq κ] (ks : List κ) (f : β → β) (v₀ : β) :
    ∀ m : List (κ × β), (m.map Prod.fst).Nodup →
      (((ks.foldl (fun m' k' => dictUpdate m' k' f v₀) m)).map Prod.fst).Nodup := by
  induction ks with
  | nil => intro m h; simpa using h
  | cons k₀ ks ih =>
    intro m h
    rw [List.foldl_cons]
    exact ih _ (dictUpdate_keys_nodup _ _ _ _ h)

/-- A stored document (`added_at` is the external `datetime.now()`
value, supplied by the caller). -/
structure SVDoc where
  id : String
  text : String
  metadata : List (String × String)
  added_at : String
deriving DecidableEq

/-- The store: the document list plus the keyword index
(word → list of doc ids, a Python dict in insertion order). -/
structure SimpleVectorStore where
  documents : List SVDoc
  index : List (List Char × List String)
deriving DecidableEq

/-- `SimpleVectorStore.__init__`. -/
def emptyStore : SimpleVectorStore := ⟨[], []⟩

/-- `text.lower().split()`. -/
def wordsOf (s : String) : List (List Char) := pySplitChars (pyLowerChars s.data)

/-- Python `set(words)`: iteration order over a `set` is unspecified, so
any duplicate-free enumeration of the words is a faithful model (the
search result is independent of this order — the order only decides
which index keys are created first). -/
def pySet (l : List (List Char)) : List (List Char) := l.dedup

/-- `SimpleVectorStore.add_document` from src/12_rag_pipeline.py. -/
def add_document (store : SimpleVectorStore) (doc_id text : String)
    (metadata : List (String × String)) (added_at : String) : SimpleVectorStore :=
  { documents := store.documents ++ [⟨doc_id, text, metadata, added_at⟩],
    index := (pySet (wordsOf text)).foldl
      (fun idx w => dictUpdate idx w (fun ds => ds ++ [doc_id]) [doc_id]) store.index }

/-- `scores[doc_id] = scores.get(doc_id, 0) + 1`. -/
def bumpScore (sc : List (String × Nat)) (d : String) : List (String × Nat) :=
  dictUpdate sc d (fun n => n + 1) 1

/-- The score loop of `search`: for each query word that is an index
key, bump every doc id listed under it (`sc` is the `scores` dict). -/
def searchScoresGo (index : List (List Char × List String)) :
    List (List Char) → List (String × Nat) → List (String × Nat)
  | [], sc => sc
  | w :: qws, sc =>
    searchScoresGo index qws
      (match dictLookup index w with
       | some ds => ds.foldl bumpScore sc
       | none => sc)

/-- The score dict built by `search`, starting from `scores = {}`. -/
def searchScores (index : List (List Char × List String))
    (qws : List (List Char)) : List (String × Nat) :=
  searchScoresGo index qws []

/-- The result loop of `search`: look each scored id up in
`self.documents` and append the document with its `relevance_score`
(ids that fail the lookup are silently skipped, as in the source). -/
def collectResults (store : SimpleVectorStore) :
    List (String × Nat) → List (SVDoc × Nat) → List (SVDoc × Nat)
  | [], results => results
  | t :: rest, results =>
    collectResults store rest
      (match store.documents.find? (fun d => decide (d.id = t.1)) with
       | some doc => results ++ [(doc, t.2)]
       | none => results)

/-- `SimpleVectorStore.search` from src/12_rag_pipeline.py: score by
keyword overlap, sort stably by score descending (Python `sorted` with
`reverse=True`), take `top_k`, and collect the surviving documents. -/
def search (store : SimpleVectorStore) (query : String) (top_k : Nat) :
    List (SVDoc × Nat) :=
  collectResults store
    (((searchScores store.index (wordsOf query)).mergeSort
        (fun a b => decide (b.2 ≤ a.2))).take top_k) []

/-- A store built by a sequence of `add_document` calls, starting from
`SimpleVectorStore()`. -/
def buildStore (calls : List SVDoc) : SimpleVectorStore :=
  calls.foldl (fun s c => add_document s c.id c.text c.metadata c.added_at) emptyStore

/-- The claim's per-document relevance: how many query tokens (counted
with multiplicity, as the code's `for word in query_words` loop does)
occur among the document's tokens. -/
def queryHitCount (query text : String) : Nat :=
  (wordsOf query).countP (fun w => decide (w ∈ wordsOf text))

/-- What C4 as stated predicts: the size of the intersection of the two
token sets (each query token counted once). -/
def setOverlapCount (query text : String) : Nat :=
  (pySet (wordsOf query)).countP (fun w => decide (w ∈ wordsOf text))

/-- C4 counterexample: with the single document `"apple pie"` stored and
the query `"apple apple"`, the code assigns relevance score 2 (the query
token `apple` is counted once per occurrence), while the token-set
intersection of the claim has size 1. -/
theorem search_score_not_set_overlap :
    (search (add_document emptyStore "d1" "apple pie" [] "t0") "apple apple" 3).map
        (fun p => (p.1.id, p.2)) = [("d1", 2)] ∧
    setOverlapCount "apple apple" "apple pie" = 1 ∧ (2 : Nat) ≠ 1 := by
  refine ⟨?_, by decide, by decide⟩
  have h1 : searchScores (add_document emptyStore "d1" "apple pie" [] "t0").index
      (wordsOf "apple apple") = [("d1", 2)] := by decide
  have h2 : List.mergeSort [("d1", (2 : Nat))] (fun a b => decide (b.2 ≤ a.2)) =
      [("d1", 2)] := by
    have := List.mergeSort_perm [("d1", (2 : Nat))] (fun a b => decide (b.2 ≤ a.2))
    exact List.perm_singleton.mp this
  show (collectResults (add_document emptyStore "d1" "apple pie" [] "t0")
      (((searchScores (add_document emptyStore "d1" "apple pie" [] "t0").index
        (wordsOf "apple apple")).mergeSort (fun a b => decide (b.2 ≤ a.2))).take 3)
      []).map (fun p => (p.1.id, p.2)) = [("d1", 2)]
  rw [h1, h2]
  decide

/-- The documents of a built store are exactly the add calls, in order. -/
theorem buildStore_documents (calls : List SVDoc) : (buildStore calls).documents = calls := by
  suffices h : ∀ (cs : List SVDoc) (s : SimpleVectorStore),
      (cs.foldl (fun s' c => add_document s' c.id c.text c.metadata c.added_at) s).documents
        = s.documents ++ cs by
    simpa [buildStore, emptyStore] using h calls emptyStore
  intro cs
  induction cs with
  | nil => intro s; simp
  | cons c cs ih =>
    intro s
    rw [List.foldl_cons, ih]
    show s.documents ++ [⟨c.id, c.text, c.metadata, c.added_at⟩] ++ cs
      = s.documents ++ (c :: cs)
    rw [List.append_assoc]
    rfl

/-- Index characterization: under a word, the built index lists exactly
the ids of the calls whose text contains that word, in call order (absent
words have no key). -/
theorem buildStore_index_lookup (calls : List SVDoc) (w : List Char) :
    dictLookup (buildStore calls).index w =
      if (calls.filter (fun c => decide (w ∈ wordsOf c.text))) = [] then none
      else some ((calls.filter (fun c => decide (w ∈ wordsOf c.text))).map SVDoc.id) := by
  induction calls using List.reverseRecOn with
  | nil => simp [buildStore, emptyStore, dictLookup]
  | append_singleton l c ih =>
    have hb : buildStore (l ++ [c])
        = add_document (buildStore l) c.id c.text c.metadata c.added_at := by
      unfold buildStore
      rw [List.foldl_append, List.foldl_cons, List.foldl_nil]
    rw [hb]
    unfold add_document
    dsimp only
    rw [dictLookup_foldl_update _ _ _ _ _
      (show (pySet (wordsOf c.text)).Nodup from List.nodup_dedup _),
      List.filter_append, ih]
    by_cases hw : w ∈ wordsOf c.text
    · have hw2 : w ∈ pySet (wordsOf c.text) := List.mem_dedup.mpr hw
      have hf : List.filter (fun c' => decide (w ∈ wordsOf c'.text)) [c] = [c] := by
        simp [hw]
      rw [if_pos hw2, hf]
      by_cases he : (l.filter (fun c' => decide (w ∈ wordsOf c'.text))) = []
      · rw [if_pos he, he]
        simp
      · rw [if_neg he, if_neg (by simp), List.map_append]
        rfl
    · have hw2 : w ∉ pySet (wordsOf c.text) := fun h => hw (List.mem_dedup.mp h)
      have hf : List.filter (fun c' => decide (w ∈ wordsOf c'.text)) [c] = [] := by
        simp [hw]
      rw [if_neg hw2, hf, List.append_nil]

/-- Ids listed under an index key of a built store are duplicate-free
when the call ids are. -/
theorem buildStore_index_nodup (calls : List SVDoc)
    (hnd : (calls.map SVDoc.id).Nodup) (w : List Char) (ds : List String)
    (h : dictLookup (buildStore calls).index w = some ds) : ds.Nodup := by
  rw [buildStore_index_lookup] at h
  by_cases he : (calls.filter (fun c => decide (w ∈ wordsOf c.text))) = []
  · rw [if_pos he] at h
    exact absurd h (by simp)
  · rw [if_neg he] at h
    obtain rfl : (calls.filter (fun c => decide (w ∈ wordsOf c.text))).map SVDoc.id = ds := by
      simpa using h
    exact List.Nodup.sublist (List.Sublist.map SVDoc.id (List.filter_sublist _)) hnd

/-- Whether one loop round over query word `w` bumps document `d`. -/
def idxHit (index : List (List Char × List String)) (d : String) (w : List Char) : Bool :=
  match dictLookup index w with
  | some ds => decide (d ∈ ds)
  | none => false

/-- The total number of bumps document `d` receives over the query words. -/
def idxCount (index : List (List Char × List String)) (qws : List (List Char))
    (d : String) : Nat :=
  qws.countP (idxHit index d)

theorem dictLookup_foldl_bump (ds : List String) (hnd : ds.Nodup)
    (sc : List (String × Nat)) (d : String) :
    dictLookup (ds.foldl bumpScore sc) d =
      if d ∈ ds then some ((dictLookup sc d).getD 0 + 1) else dictLookup sc d := by
  have h0 : ds.foldl bumpScore sc
      = ds.foldl (fun m' k' => dictUpdate m' k' (fun n => n + 1) 1) sc := rfl
  rw [h0, dictLookup_foldl_update _ _ _ _ _ hnd]
  by_cases hd : d ∈ ds
  · rw [if_pos hd, if_pos hd]
    cases dictLookup sc d <;> rfl
  · rw [if_neg hd, if_neg hd]

theorem foldl_bump_keys_nodup (ds : List String) (sc : List (String × Nat))
    (h : (sc.map Prod.fst).Nodup) : ((ds.foldl bumpScore sc).map Prod.fst).Nodup := by
  have h0 : ds.foldl bumpScore sc
      = ds.foldl (fun m' k' => dictUpdate m' k' (fun n => n + 1) 1) sc := rfl
  rw [h0]
  exact dictUpdate_foldl_keys_nodup _ _ _ _ h

/-- Invariant of the score loop: the dict maps `d` to its prior value
plus the number of bumps the remaining words give it (a fresh key when
that number is positive and `d` was absent). -/
theorem searchScoresGo_lookup (index : List (List Char × List String))
    (hds : ∀ w ds, dictLookup index w = some ds → ds.Nodup) (qws : List (List Char)) :
    ∀ sc : List (String × Nat), (sc.map Prod.fst).Nodup →
      (∀ d : String, dictLookup (searchScoresGo index qws sc) d =
        match dictLookup sc d with
        | some n => some (n + idxCount index qws d)
        | none =>
          if 0 < idxCount index qws d then some (idxCount index qws d) else none) ∧
      ((searchScoresGo index qws sc).map Prod.fst).Nodup := by
  induction qws with
  | nil =>
    intro sc hsc
    refine ⟨fun d => ?_, hsc⟩
    show dictLookup sc d = _
    have hc : idxCount index [] d = 0 := rfl
    rw [hc]
    cases dictLookup sc d <;> rfl
  | cons w qws ih =>
    intro sc hsc
    have hcnt : ∀ d, idxCount index (w :: qws) d
        = idxCount index qws d + (if idxHit index d w then 1 else 0) := by
      intro d
      unfold idxCount
      rw [List.countP_cons]
    cases hidx : dictLookup index w with
    | none =>
      have hgo : searchScoresGo index (w :: qws) sc = searchScoresGo index qws sc := by
        rw [show searchScoresGo index (w :: qws) sc = searchScoresGo index qws
          (match dictLookup index w with
           | some ds => ds.foldl bumpScore sc
           | none => sc) from rfl, hidx]
      have hhit : ∀ d, idxHit index d w = false := by
        intro d; unfold idxHit; rw [hidx]
      refine ⟨fun d => ?_, by rw [hgo]; exact (ih sc hsc).2⟩
      rw [hgo, (ih sc hsc).1 d, hcnt d, hhit d]
      simp only [if_false, Bool.false_eq_true, Nat.add_zero]
    | some ds =>
      have hdsnd : ds.Nodup := hds w ds hidx
      have hgo : searchScoresGo index (w :: qws) sc
          = searchScoresGo index qws (ds.foldl bumpScore sc) := by
        rw [show searchScoresGo index (w :: qws) sc = searchScoresGo index qws
          (match dictLookup index w with
           | some ds' => ds'.foldl bumpScore sc
           | none => sc) from rfl, hidx]
      have hsc' : ((ds.foldl bumpScore sc).map Prod.fst).Nodup :=
        foldl_bump_keys_nodup ds sc hsc
      refine ⟨fun d => ?_, by rw [hgo]; exact (ih _ hsc').2⟩
      rw [hgo, (ih _ hsc').1 d, dictLookup_foldl_bump ds hdsnd sc d, hcnt d]
      have hhit : idxHit index d w = decide (d ∈ ds) := by
        unfold idxHit; rw [hidx]
      rw [hhit]
      by_cases hd : d ∈ ds
      · have hone : (if decide (d ∈ ds) = true then 1 else 0) = 1 := by simp [hd]
        rw [if_pos hd, hone]
        cases hscd : dictLookup sc d with
        | some n =>
          simp only [Option.getD_some]
          congr 1
          omega
        | none =>
          simp only [Option.getD_none]
          rw [if_pos (by omega)]
          congr 1
          omega
      · have hzero : (if decide (d ∈ ds) = true then 1 else 0) = 0 := by simp [hd]
        rw [if_neg hd, hzero]
        simp only [Nat.add_zero]

/-- The final score dict: `d` scores its bump count, and appears exactly
when that count is positive; keys are duplicate-free. -/
theorem searchScores_lookup (index : List (List Char × List String))
    (hds : ∀ w ds, dictLookup index w = some ds → ds.Nodup) (qws : List (List Char)) :
    (∀ d : String, dictLookup (searchScores index qws) d =
      if 0 < idxCount index qws d then some (idxCount index qws d) else none) ∧
    ((searchScores index qws).map Prod.fst).Nodup := by
  obtain ⟨h1, h2⟩ := searchScoresGo_lookup index hds qws [] (by simp)
  refine ⟨fun d => ?_, h2⟩
  have h3 := h1 d
  rw [show dictLookup ([] : List (String × Nat)) d = none from rfl] at h3
  exact h3

/-- With duplicate-free ids, `find?` retrieves exactly the stored
document. -/
theorem find?_doc_of_mem (docs : List SVDoc) (hnd : (docs.map SVDoc.id).Nodup)
    (c : SVDoc) (hc : c ∈ docs) :
    docs.find? (fun d => decide (d.id = c.id)) = some c := by
  induction docs with
  | nil => exact absurd hc (by simp)
  | cons h t ih =>
    rcases List.mem_cons.mp hc with rfl | hmem
    · rw [List.find?_cons_of_pos _ (by simp)]
    · by_cases hid : h.id = c.id
      · exfalso
        have : c.id ∈ t.map SVDoc.id := List.mem_map.mpr ⟨c, hmem, rfl⟩
        rw [← hid] at this
        exact (List.nodup_cons.mp (by simpa using hnd)).1 this
      · rw [List.find?_cons_of_neg _ (by simpa using hid)]
        exact ih (List.nodup_cons.mp (by simpa using hnd)).2 hmem

/-- Elements already collected stay collected. -/
theorem collectResults_mono (store : SimpleVectorStore) (top : List (String × Nat)) :
    ∀ (res : List (SVDoc × Nat)) (p : SVDoc × Nat), p ∈ res →
      p ∈ collectResults store top res := by
  induction top with
  | nil => intro res p hp; exact hp
  | cons t rest ih =>
    intro res p hp
    rw [show collectResults store (t :: rest) res
        = collectResults store rest
          (match store.documents.find? (fun d => decide (d.id = t.1)) with
           | some doc => res ++ [(doc, t.2)]
           | none => res) from rfl]
    cases hf : store.documents.find? (fun d => decide (d.id = t.1)) with
    | some doc => exact ih _ p (List.mem_append_left _ hp)
    | none => exact ih _ p hp

/-- Every collected result either was already collected or comes from a
`top` entry via a successful document lookup. -/
theorem collectResults_spec (store : SimpleVectorStore) (P : SVDoc × Nat → Prop)
    (top : List (String × Nat)) :
    ∀ res : List (SVDoc × Nat), (∀ p ∈ res, P p) →
      (∀ t ∈ top, ∀ doc,
        store.documents.find? (fun d => decide (d.id = t.1)) = some doc → P (doc, t.2)) →
      ∀ p ∈ collectResults store top res, P p := by
  induction top with
  | nil => intro res hres _ p hp; exact hres p hp
  | cons t rest ih =>
    intro res hres htop p hp
    rw [show collectResults store (t :: rest) res
        = collectResults store rest
          (match store.documents.find? (fun d => decide (d.id = t.1)) with
           | some doc => res ++ [(doc, t.2)]
           | none => res) from rfl] at hp
    cases hf : store.documents.find? (fun d => decide (d.id = t.1)) with
    | some doc =>
      rw [hf] at hp
      refine ih _ (fun q hq => ?_) (fun t' ht' => htop t' (List.mem_cons_of_mem _ ht')) p hp
      rcases List.mem_append.mp hq with hq1 | hq2
      · exact hres q hq1
      · obtain rfl : q = (doc, t.2) := by simpa using hq2
        exact htop t (List.mem_cons_self _ _) doc hf
    | none =>
      rw [hf] at hp
      exact ih _ hres (fun t' ht' => htop t' (List.mem_cons_of_mem _ ht')) p hp

/-- When every `top` id resolves, the loop appends one result per entry. -/
theorem collectResults_length (store : SimpleVectorStore) (top : List (String × Nat))
    (hfind : ∀ t ∈ top, (store.documents.find? (fun d => decide (d.id = t.1))).isSome) :
    ∀ res : List (SVDoc × Nat),
      (collectResults store top res).length = res.length + top.length := by
  induction top with
  | nil => intro res; simp [collectResults]
  | cons t rest ih =>
    intro res
    rw [show collectResults store (t :: rest) res
        = collectResults store rest
          (match store.documents.find? (fun d => decide (d.id = t.1)) with
           | some doc => res ++ [(doc, t.2)]
           | none => res) from rfl]
    obtain ⟨doc, hf⟩ := Option.isSome_iff_exists.mp (hfind t (List.mem_cons_self _ _))
    rw [hf]
    rw [ih (fun t' ht' => hfind t' (List.mem_cons_of_mem _ ht')) _]
    simp only [List.length_append, List.length_cons, List.length_nil]
    omega

/-- When every `top` id resolves, each `top` entry surfaces in the
results with its id and score. -/
theorem collectResults_onto (store : SimpleVectorStore) (top : List (String × Nat))
    (hfind : ∀ t ∈ top, (store.documents.find? (fun d => decide (d.id = t.1))).isSome) :
    ∀ res : List (SVDoc × Nat), ∀ t ∈ top,
      ∃ p ∈ collectResults store top res, p.1.id = t.1 ∧ p.2 = t.2 := by
  induction top with
  | nil => intro res t ht; exact absurd ht (by simp)
  | cons t₀ rest ih =>
    intro res t ht
    rw [show collectResults store (t₀ :: rest) res
        = collectResults store rest
          (match store.documents.find? (fun d => decide (d.id = t₀.1)) with
           | some doc => res ++ [(doc, t₀.2)]
           | none => res) from rfl]
    obtain ⟨doc, hf⟩ := Option.isSome_iff_exists.mp (hfind t₀ (List.mem_cons_self _ _))
    rw [hf]
    rcases List.mem_cons.mp ht with rfl | hmem
    · refine ⟨(doc, t.2), ?_, ?_, rfl⟩
      · exact collectResults_mono store rest _ _ (List.mem_append_right _ (by simp))
      · have := List.find?_some hf
        simpa using this
    · exact ih (fun t' ht' => hfind t' (List.mem_cons_of_mem _ ht')) _ t hmem

/-- On a built store, a query word bumps a stored document exactly when
the word is one of the document's tokens. -/
theorem idxHit_buildStore (calls : List SVDoc) (hnd : (calls.map SVDoc.id).Nodup)
    (c : SVDoc) (hc : c ∈ calls) (w : List Char) :
    idxHit (buildStore calls).index c.id w = decide (w ∈ wordsOf c.text) := by
  unfold idxHit
  rw [buildStore_index_lookup]
  by_cases he : (calls.filter (fun c' => decide (w ∈ wordsOf c'.text))) = []
  · rw [if_pos he]
    have hw : ¬ w ∈ wordsOf c.text := by
      intro hw
      have hcf : c ∈ calls.filter (fun c' => decide (w ∈ wordsOf c'.text)) :=
        List.mem_filter.mpr ⟨hc, by simpa using hw⟩
      rw [he] at hcf
      exact absurd hcf (by simp)
    simp [hw]
  · rw [if_neg he]
    show decide (c.id ∈ (calls.filter (fun c' => decide (w ∈ wordsOf c'.text))).map SVDoc.id)
      = decide (w ∈ wordsOf c.text)
    have hiff :
        (c.id ∈ (calls.filter (fun c' => decide (w ∈ wordsOf c'.text))).map SVDoc.id)
          ↔ w ∈ wordsOf c.text := by
      constructor
      · intro h
        obtain ⟨c', hc', hid⟩ := List.mem_map.mp h
        obtain ⟨hc'm, hpred⟩ := List.mem_filter.mp hc'
        obtain rfl : c' = c := List.inj_on_of_nodup_map hnd hc'm hc hid
        simpa using hpred
      · intro hw
        exact List.mem_map.mpr ⟨c, List.mem_filter.mpr ⟨hc, by simpa using hw⟩, rfl⟩
    simp [hiff]

/-- On a built store, a stored document's bump count over the query is
exactly the claim's hit count. -/
theorem idxCount_eq_hit (calls : List SVDoc) (hnd : (calls.map SVDoc.id).Nodup)
    (c : SVDoc) (hc : c ∈ calls) (query : String) :
    idxCount (buildStore calls).index (wordsOf query) c.id = queryHitCount query c.text := by
  unfold idxCount queryHitCount
  exact List.countP_congr (fun w _ => by rw [idxHit_buildStore calls hnd c hc w])

/-- Only stored ids ever receive a positive bump count. -/
theorem idxCount_pos_imp_id (calls : List SVDoc) (qws : List (List Char)) (d : String)
    (h : 0 < idxCount (buildStore calls).index qws d) : ∃ c ∈ calls, c.id = d := by
  unfold idxCount at h
  obtain ⟨w, hw, hhit⟩ := List.countP_pos_iff.mp h
  unfold idxHit at hhit
  cases hl : dictLookup (buildStore calls).index w with
  | none => rw [hl] at hhit; exact absurd hhit (by simp)
  | some ds =>
    rw [hl] at hhit
    have hd : d ∈ ds := by simpa using hhit
    rw [buildStore_index_lookup] at hl
    by_cases he : (calls.filter (fun c' => decide (w ∈ wordsOf c'.text))) = []
    · rw [if_pos he] at hl
      exact absurd hl (by simp)
    · rw [if_neg he] at hl
      obtain rfl : (calls.filter (fun c' => decide (w ∈ wordsOf c'.text))).map SVDoc.id
          = ds := by simpa using hl
      obtain ⟨c', hc', hid⟩ := List.mem_map.mp hd
      exact ⟨c', List.mem_of_mem_filter hc', hid⟩

/-- Every score entry belongs to a stored document, scores its hit
count, and is positive. -/
theorem scores_entry_spec (calls : List SVDoc) (hnd : (calls.map SVDoc.id).Nodup)
    (query : String) (t : String × Nat)
    (ht : t ∈ searchScores (buildStore calls).index (wordsOf query)) :
    ∃ c ∈ calls, c.id = t.1 ∧ t.2 = queryHitCount query c.text ∧ 0 < t.2 := by
  obtain ⟨hlook, hkeys⟩ :=
    searchScores_lookup (buildStore calls).index (buildStore_index_nodup calls hnd)
      (wordsOf query)
  obtain ⟨d, s⟩ := t
  have hlk : dictLookup (searchScores (buildStore calls).index (wordsOf query)) d
      = some s := dictLookup_eq_some_of_mem _ _ _ hkeys ht
  rw [hlook d] at hlk
  by_cases hpos : 0 < idxCount (buildStore calls).index (wordsOf query) d
  · rw [if_pos hpos] at hlk
    obtain rfl : idxCount (buildStore calls).index (wordsOf query) d = s := by
      simpa using hlk
    obtain ⟨c, hc, hcid⟩ := idxCount_pos_imp_id calls _ d hpos
    subst hcid
    exact ⟨c, hc, rfl, idxCount_eq_hit calls hnd c hc query, hpos⟩
  · rw [if_neg hpos] at hlk
    exact absurd hlk (by simp)

/-- C4 (amended): on a store built from documents with pairwise-distinct
ids, `search` returns `min top_k (number of positive-scoring documents)`
results; each result is a stored document paired with its relevance
score, that score is the number of query tokens (with multiplicity)
occurring among the document's tokens and is positive (zero-scoring
documents are omitted), and every returned score dominates the hit count
of every document not returned. -/
theorem search_top_k_spec (calls : List SVDoc) (hnd : (calls.map SVDoc.id).Nodup)
    (query : String) (top_k : Nat) :
    (∀ p ∈ search (buildStore calls) query top_k,
      p.1 ∈ (buildStore calls).documents ∧ p.2 = queryHitCount query p.1.text ∧ 0 < p.2) ∧
    (search (buildStore calls) query top_k).length
      = min top_k ((buildStore calls).documents.countP
          (fun d => decide (0 < queryHitCount query d.text))) ∧
    (∀ p ∈ search (buildStore calls) query top_k,
      ∀ d ∈ (buildStore calls).documents,
        (∀ q ∈ search (buildStore calls) query top_k, q.1.id ≠ d.id) →
          queryHitCount query d.text ≤ p.2) := by
  have hdocs : (buildStore calls).documents = calls := buildStore_documents calls
  obtain ⟨hlook, hkeys⟩ :=
    searchScores_lookup (buildStore calls).index (buildStore_index_nodup calls hnd)
      (wordsOf query)
  set scores := searchScores (buildStore calls).index (wordsOf query) with hscores
  set srt := scores.mergeSort (fun a b => decide (b.2 ≤ a.2)) with hsrt
  set top := srt.take top_k with htop
  have hsearch : search (buildStore calls) query top_k
      = collectResults (buildStore calls) top [] := rfl
  have hperm : List.Perm srt scores := List.mergeSort_perm scores _
  have hsorted : srt.Pairwise (fun a b => decide (b.2 ≤ a.2) = true) := by
    rw [hsrt]
    exact List.sorted_mergeSort
      (fun a b c h1 h2 => by
        simp only [decide_eq_true_eq] at h1 h2 ⊢
        omega)
      (fun a b => by
        simp only [Bool.or_eq_true, decide_eq_true_eq]
        exact Nat.le_total b.2 a.2)
      scores
  have hcross : ∀ a ∈ top, ∀ b ∈ srt.drop top_k, b.2 ≤ a.2 := by
    have hpw : (top ++ srt.drop top_k).Pairwise (fun a b => decide (b.2 ≤ a.2) = true) := by
      rw [htop, List.take_append_drop]
      exact hsorted
    obtain ⟨-, -, hc⟩ := List.pairwise_append.mp hpw
    intro a ha b hb
    have := hc a ha b hb
    simpa using this
  have htopmem : ∀ t ∈ top, t ∈ scores := by
    intro t ht
    exact (List.Perm.mem_iff hperm).mp (List.take_subset _ _ ht)
  have hfind : ∀ t ∈ top,
      ((buildStore calls).documents.find? (fun d => decide (d.id = t.1))).isSome := by
    intro t ht
    obtain ⟨c, hc, hcid, -, -⟩ := scores_entry_spec calls hnd query t (htopmem t ht)
    rw [hdocs, ← hcid, find?_doc_of_mem calls hnd c hc]
    rfl
  refine ⟨?_, ?_, ?_⟩
  · -- each result: stored document, hit-count score, positive
    rw [hsearch]
    refine collectResults_spec _ _ top [] (by simp) ?_
    intro t ht doc hfdoc
    obtain ⟨c, hc, hcid, hs, hpos⟩ := scores_entry_spec calls hnd query t (htopmem t ht)
    have hfc : (buildStore calls).documents.find? (fun d => decide (d.id = t.1))
        = some c := by
      rw [hdocs, ← hcid]
      exact find?_doc_of_mem calls hnd c hc
    obtain rfl : doc = c := by
      have := hfdoc.symm.trans hfc
      simpa using this
    exact ⟨by rw [hdocs]; exact hc, hs, hpos⟩
  · -- length = min top_k (#positive documents)
    rw [hsearch, collectResults_length _ top hfind []]
    have h1 : top.length = min top_k scores.length := by
      rw [htop, List.length_take, List.Perm.length_eq hperm]
    have hAnodup : ((calls.filter (fun c => decide (0 < queryHitCount query c.text))).map
        SVDoc.id).Nodup :=
      List.Nodup.sublist (List.Sublist.map SVDoc.id (List.filter_sublist _)) hnd
    have hmemiff : ∀ d : String, d ∈ scores.map Prod.fst ↔
        d ∈ (calls.filter (fun c => decide (0 < queryHitCount query c.text))).map
          SVDoc.id := by
      intro d
      constructor
      · intro hmem
        have hsome : (dictLookup scores d).isSome :=
          (dictLookup_isSome_iff_mem_keys scores d).mpr hmem
        rw [hlook d] at hsome
        by_cases hpos : 0 < idxCount (buildStore calls).index (wordsOf query) d
        · obtain ⟨c, hc, hcid⟩ := idxCount_pos_imp_id calls _ d hpos
          subst hcid
          rw [idxCount_eq_hit calls hnd c hc query] at hpos
          exact List.mem_map.mpr ⟨c, List.mem_filter.mpr ⟨hc, by simpa using hpos⟩, rfl⟩
        · rw [if_neg hpos] at hsome
          exact absurd hsome (by simp)
      · intro hmem
        obtain ⟨c, hcf, rfl⟩ := List.mem_map.mp hmem
        obtain ⟨hc, hcp⟩ := List.mem_filter.mp hcf
        have hpos : 0 < idxCount (buildStore calls).index (wordsOf query) c.id := by
          rw [idxCount_eq_hit calls hnd c hc query]
          simpa using hcp
        have hsome : (dictLookup scores c.id).isSome := by
          rw [hlook c.id, if_pos hpos]
          rfl
        exact (dictLookup_isSome_iff_mem_keys scores c.id).mp hsome
    have hpermKA : List.Perm (scores.map Prod.fst)
        ((calls.filter (fun c => decide (0 < queryHitCount query c.text))).map SVDoc.id) :=
      (List.perm_ext_iff_of_nodup hkeys hAnodup).mpr hmemiff
    have h2 : scores.length
        = calls.countP (fun d => decide (0 < queryHitCount query d.text)) := by
      have := List.Perm.length_eq hpermKA
      rw [List.length_map, List.length_map] at this
      rw [this, List.countP_eq_length_filter]
    rw [h1, h2, hdocs]
    simp only [List.length_nil]
    omega
  · -- dominance over omitted documents
    intro p hp d hd hne
    rw [hdocs] at hd
    by_cases hpos : 0 < queryHitCount query d.text
    · have hcnt : idxCount (buildStore calls).index (wordsOf query) d.id
          = queryHitCount query d.text := idxCount_eq_hit calls hnd d hd query
      have hlk : dictLookup scores d.id = some (queryHitCount query d.text) := by
        rw [hlook d.id, hcnt, if_pos hpos]
      have hmem : (d.id, queryHitCount query d.text) ∈ scores :=
        mem_of_dictLookup_eq_some _ _ _ hlk
      have hmem2 : (d.id, queryHitCount query d.text) ∈ srt :=
        (List.Perm.mem_iff hperm).mpr hmem
      rw [← List.take_append_drop top_k srt] at hmem2
      rcases List.mem_append.mp hmem2 with hin | hdrop
      · obtain ⟨q, hq, hqid, -⟩ := collectResults_onto _ top hfind [] _ hin
        rw [hsearch] at hne
        exact absurd hqid (hne q hq)
      · have hresP : ∀ r ∈ search (buildStore calls) query top_k,
            ∃ t ∈ top, r.2 = t.2 := by
          rw [hsearch]
          exact collectResults_spec _ _ top [] (by simp)
            (fun t ht doc _ => ⟨t, ht, rfl⟩)
        obtain ⟨t, ht, hpt⟩ := hresP p hp
        have := hcross t ht _ hdrop
        rw [hpt]
        simpa using this
    · omega

/-- Witness for C4 (amended) at a one-document store and query `apple`. -/
theorem search_top_k_spec_witness :
    (∀ p ∈ search (buildStore [SVDoc.mk "d1" "apple pie" [] "t0"]) "apple" 1,
      p.1 ∈ (buildStore [SVDoc.mk "d1" "apple pie" [] "t0"]).documents ∧
      p.2 = queryHitCount "apple" p.1.text ∧ 0 < p.2) ∧
    (search (buildStore [SVDoc.mk "d1" "apple pie" [] "t0"]) "apple" 1).length
      = min 1 ((buildStore [SVDoc.mk "d1" "apple pie" [] "t0"]).documents.countP
          (fun d => decide (0 < queryHitCount "apple" d.text))) ∧
    (∀ p ∈ search (buildStore [SVDoc.mk "d1" "apple pie" [] "t0"]) "apple" 1,
      ∀ d ∈ (buildStore [SVDoc.mk "d1" "apple pie" [] "t0"]).documents,
        (∀ q ∈ search (buildStore [SVDoc.mk "d1" "apple pie" [] "t0"]) "apple" 1,
          q.1.id ≠ d.id) →
          queryHitCount "apple" d.text ≤ p.2) :=
  search_top_k_spec [SVDoc.mk "d1" "apple pie" [] "t0"] (by decide) "apple" 1

/-! ### C9 — add-then-search round trip

Needs: a single whitespace-free lowercase token, used as the query,
tokenizes to itself (`Char.toLower` is idempotent, and `split` of a
nonempty all-nonspace string is that one token). -/

theorem char_toNat_ofNat (n : Nat) (h : n.isValidChar) : (Char.ofNat n).toNat = n := by
  unfold Char.ofNat
  rw [dif_pos h]
  rfl

theorem toLower_idem (c : Char) : (Char.toLower c).toLower = Char.toLower c := by
  have hlc : ∀ a : Char, Char.toLower a =
      if a.toNat ≥ 65 ∧ a.toNat ≤ 90 then Char.ofNat (a.toNat + 32) else a := fun a => rfl
  by_cases h : c.toNat ≥ 65 ∧ c.toNat ≤ 90
  · have h1 : Char.toLower c = Char.ofNat (c.toNat + 32) := by rw [hlc c, if_pos h]
    have hv : (c.toNat + 32).isValidChar := Or.inl (by omega)
    have h2 : (Char.ofNat (c.toNat + 32)).toNat = c.toNat + 32 := char_toNat_ofNat _ hv
    rw [h1, hlc (Char.ofNat (c.toNat + 32)), h2, if_neg (by omega)]
  · have h1 : Char.toLower c = c := by rw [hlc c, if_neg h]
    rw [h1, h1]

/-- Unfolding equation: `split` helper on the empty string. -/
theorem pySplitAux_nil (acc : List Char) :
    pySplitAux [] acc = if acc.isEmpty then [] else [acc.reverse] := rfl

/-- Unfolding equation: `split` helper on a cons. -/
theorem pySplitAux_cons (c : Char) (cs acc : List Char) :
    pySplitAux (c :: cs) acc =
      if pyIsSpace c then
        if acc.isEmpty then pySplitAux cs [] else acc.reverse :: pySplitAux cs []
      else pySplitAux cs (c :: acc) := rfl

/-- Tokens of `split` are nonempty, whitespace-free, and drawn from the
accumulator or the input. -/
theorem pySplitAux_token_spec (l : List Char) :
    ∀ acc, (∀ c ∈ acc, pyIsSpace c = false) →
      ∀ t ∈ pySplitAux l acc,
        t ≠ [] ∧ ∀ c ∈ t, pyIsSpace c = false ∧ (c ∈ acc ∨ c ∈ l) := by
  induction l with
  | nil =>
    intro acc hacc t ht
    rw [pySplitAux_nil] at ht
    by_cases he : acc.isEmpty
    · rw [if_pos he] at ht
      exact absurd ht (by simp)
    · rw [if_neg he] at ht
      obtain rfl : t = acc.reverse := by simpa using ht
      refine ⟨by simpa using (by simpa [List.isEmpty_iff] using he : acc ≠ []), ?_⟩
      intro c hc
      have hca : c ∈ acc := by simpa using hc
      exact ⟨hacc c hca, Or.inl hca⟩
  | cons c₀ cs ih =>
    intro acc hacc t ht
    rw [pySplitAux_cons] at ht
    by_cases hsp : pyIsSpace c₀
    · rw [if_pos hsp] at ht
      by_cases he : acc.isEmpty
      · rw [if_pos he] at ht
        obtain ⟨hne, hall⟩ := ih [] (by simp) t ht
        refine ⟨hne, fun c hc => ?_⟩
        obtain ⟨h1, h2⟩ := hall c hc
        rcases h2 with h2 | h2
        · exact absurd h2 (by simp)
        · exact ⟨h1, Or.inr (List.mem_cons_of_mem _ h2)⟩
      · rw [if_neg he] at ht
        rcases List.mem_cons.mp ht with rfl | hrec
        · refine ⟨by simpa using (by simpa [List.isEmpty_iff] using he : acc ≠ []), ?_⟩
          intro c hc
          have hca : c ∈ acc := by simpa using hc
          exact ⟨hacc c hca, Or.inl hca⟩
        · obtain ⟨hne, hall⟩ := ih [] (by simp) t hrec
          refine ⟨hne, fun c hc => ?_⟩
          obtain ⟨h1, h2⟩ := hall c hc
          rcases h2 with h2 | h2
          · exact absurd h2 (by simp)
          · exact ⟨h1, Or.inr (List.mem_cons_of_mem _ h2)⟩
    · rw [if_neg hsp] at ht
      have hsp' : pyIsSpace c₀ = false := by
        revert hsp; cases pyIsSpace c₀ <;> simp
      obtain ⟨hne, hall⟩ := ih (c₀ :: acc)
        (fun c hc => by
          rcases List.mem_cons.mp hc with rfl | hca
          · exact hsp'
          · exact hacc c hca) t ht
      refine ⟨hne, fun c hc => ?_⟩
      obtain ⟨h1, h2⟩ := hall c hc
      rcases h2 with h2 | h2
      · rcases List.mem_cons.mp h2 with rfl | hca
        · exact ⟨h1, Or.inr (List.mem_cons_self _ _)⟩
        · exact ⟨h1, Or.inl hca⟩
      · exact ⟨h1, Or.inr (List.mem_cons_of_mem _ h2)⟩

/-- `split` of an all-nonspace input is the single accumulated token. -/
theorem pySplitAux_all_nonspace (l : List Char) :
    ∀ acc, (∀ c ∈ l, pyIsSpace c = false) → (acc ≠ [] ∨ l ≠ []) →
      pySplitAux l acc = [acc.reverse ++ l] := by
  induction l with
  | nil =>
    intro acc _ hne
    rcases hne with hne | hne
    · rw [pySplitAux_nil, if_neg (by simpa [List.isEmpty_iff] using hne)]
      simp
    · exact absurd rfl hne
  | cons c₀ cs ih =>
    intro acc h _
    have hc : pyIsSpace c₀ = false := h c₀ (List.mem_cons_self _ _)
    rw [pySplitAux_cons, if_neg (by simp [hc]),
      ih (c₀ :: acc) (fun c hcm => h c (List.mem_cons_of_mem _ hcm))
        (Or.inl (by simp))]
    simp

/-- A single nonempty whitespace-free token splits to itself. -/
theorem pySplitChars_single (q : List Char) (hne : q ≠ [])
    (hns : ∀ c ∈ q, pyIsSpace c = false) : pySplitChars q = [q] := by
  unfold pySplitChars
  rw [pySplitAux_all_nonspace q [] hns (Or.inr hne)]
  simp

/-- Tokens of `text.lower().split()` are nonempty, whitespace-free and
consist of lowered characters of the text. -/
theorem wordsOf_token_props (s : String) (t : List Char) (ht : t ∈ wordsOf s) :
    t ≠ [] ∧ ∀ c ∈ t, pyIsSpace c = false ∧ c ∈ pyLowerChars s.data := by
  obtain ⟨hne, hall⟩ :=
    pySplitAux_token_spec (pyLowerChars s.data) [] (by simp) t ht
  refine ⟨hne, fun c hc => ?_⟩
  obtain ⟨h1, h2⟩ := hall c hc
  rcases h2 with h2 | h2
  · exact absurd h2 (by simp)
  · exact ⟨h1, h2⟩

/-- A token of `text.lower().split()`, used as a query string, tokenizes
to exactly itself. -/
theorem wordsOf_token_self (text : String) (q : List Char) (hq : q ∈ wordsOf text) :
    wordsOf (String.mk q) = [q] := by
  obtain ⟨hne, hprops⟩ := wordsOf_token_props text q hq
  have hlow : pyLowerChars (String.mk q).data = q := by
    show q.map Char.toLower = q
    have hstep : ∀ c ∈ q, Char.toLower c = c := by
      intro c hc
      obtain ⟨-, hcm⟩ := hprops c hc
      obtain ⟨c', -, rfl⟩ := List.mem_map.mp hcm
      exact toLower_idem c'
    rw [List.map_congr_left hstep]
    simp
  show pySplitChars (pyLowerChars (String.mk q).data) = [q]
  rw [hlow]
  exact pySplitChars_single q hne (fun c hc => (hprops c hc).1)

/-- C9: add one document to an empty store; querying any single
whitespace-split lowercase token of its text (with `top_k ≥ 1`) returns
that document with `relevance_score ≥ 1`. -/
theorem search_roundtrip (doc_id text : String) (md : List (String × String)) (ts : String)
    (q : List Char) (hq : q ∈ wordsOf text) (k : Nat) (hk : 1 ≤ k) :
    ∃ p ∈ search (add_document emptyStore doc_id text md ts) (String.mk q) k,
      p.1.id = doc_id ∧ p.1.text = text ∧ 1 ≤ p.2 := by
  have hstore : search (add_document emptyStore doc_id text md ts) (String.mk q) k
      = search (buildStore [SVDoc.mk doc_id text md ts]) (String.mk q) k := rfl
  rw [hstore]
  have hnd1 : (([SVDoc.mk doc_id text md ts]).map SVDoc.id).Nodup := by simp
  have hc : SVDoc.mk doc_id text md ts ∈ [SVDoc.mk doc_id text md ts] :=
    List.mem_cons_self _ _
  have hqws : wordsOf (String.mk q) = [q] := wordsOf_token_self text q hq
  obtain ⟨hlook, hkeys⟩ :=
    searchScores_lookup (buildStore [SVDoc.mk doc_id text md ts]).index
      (buildStore_index_nodup _ hnd1) [q]
  -- the single document scores exactly 1 on the query [q]
  have hcnt : idxCount (buildStore [SVDoc.mk doc_id text md ts]).index [q] doc_id = 1 := by
    have hhit : idxHit (buildStore [SVDoc.mk doc_id text md ts]).index doc_id q = true := by
      have h2 : idxHit (buildStore [SVDoc.mk doc_id text md ts]).index doc_id q
          = decide (q ∈ wordsOf text) :=
        idxHit_buildStore [SVDoc.mk doc_id text md ts] hnd1 (SVDoc.mk doc_id text md ts) hc q
      rw [h2]
      simpa using hq
    unfold idxCount
    rw [List.countP_cons, List.countP_nil, hhit]
    simp
  have hlkd : dictLookup (searchScores (buildStore [SVDoc.mk doc_id text md ts]).index [q])
      doc_id = some 1 := by
    rw [hlook doc_id, hcnt]
    simp
  have hmem1 : (doc_id, 1) ∈ searchScores (buildStore [SVDoc.mk doc_id text md ts]).index [q] :=
    mem_of_dictLookup_eq_some _ _ _ hlkd
  -- the score dict is exactly [(doc_id, 1)]
  have hkeyid : ∀ t ∈ searchScores (buildStore [SVDoc.mk doc_id text md ts]).index [q],
      t.1 = doc_id := by
    intro t ht
    obtain ⟨d2, s2⟩ := t
    have hlk2 : dictLookup (searchScores (buildStore [SVDoc.mk doc_id text md ts]).index [q])
        d2 = some s2 := dictLookup_eq_some_of_mem _ _ _ hkeys ht
    rw [hlook d2] at hlk2
    by_cases hpos : 0 < idxCount (buildStore [SVDoc.mk doc_id text md ts]).index [q] d2
    · obtain ⟨c', hc', hcid⟩ := idxCount_pos_imp_id [SVDoc.mk doc_id text md ts] [q] d2 hpos
      obtain rfl : c' = SVDoc.mk doc_id text md ts := by simpa using hc'
      exact hcid.symm
    · rw [if_neg hpos] at hlk2
      exact absurd hlk2 (by simp)
  have hscoreseq : searchScores (buildStore [SVDoc.mk doc_id text md ts]).index [q]
      = [(doc_id, 1)] := by
    cases hS : searchScores (buildStore [SVDoc.mk doc_id text md ts]).index [q] with
    | nil => rw [hS] at hmem1; exact absurd hmem1 (by simp)
    | cons a rest =>
      cases rest with
      | nil =>
        rw [hS] at hmem1
        obtain rfl : (doc_id, 1) = a := by simpa using hmem1
        rfl
      | cons b rest2 =>
        exfalso
        have ha : a.1 = doc_id := hkeyid a (by rw [hS]; exact List.mem_cons_self _ _)
        have hb : b.1 = doc_id := hkeyid b
          (by rw [hS]; exact List.mem_cons_of_mem _ (List.mem_cons_self _ _))
        rw [hS] at hkeys
        simp only [List.map_cons, List.nodup_cons, List.mem_cons] at hkeys
        exact hkeys.1 (Or.inl (ha.trans hb.symm))
  have hsrtEq : (searchScores (buildStore [SVDoc.mk doc_id text md ts]).index [q]).mergeSort
      (fun a b => decide (b.2 ≤ a.2)) = [(doc_id, 1)] := by
    rw [hscoreseq]
    exact List.perm_singleton.mp (List.mergeSort_perm _ _)
  have htake : List.take k [((doc_id : String), (1 : Nat))] = [(doc_id, 1)] :=
    List.take_of_length_le (by simpa using hk)
  have hfindc : (buildStore [SVDoc.mk doc_id text md ts]).documents.find?
      (fun d => decide (d.id = doc_id)) = some (SVDoc.mk doc_id text md ts) := by
    rw [buildStore_documents]
    exact List.find?_cons_of_pos _ (by simp)
  have hcollect : collectResults (buildStore [SVDoc.mk doc_id text md ts])
      [((doc_id : String), (1 : Nat))] [] = [(SVDoc.mk doc_id text md ts, 1)] := by
    rw [show collectResults (buildStore [SVDoc.mk doc_id text md ts])
        [((doc_id : String), (1 : Nat))] []
      = collectResults (buildStore [SVDoc.mk doc_id text md ts]) []
          (match (buildStore [SVDoc.mk doc_id text md ts]).documents.find?
              (fun d => decide (d.id = doc_id)) with
           | some doc => ([] : List (SVDoc × Nat)) ++ [(doc, 1)]
           | none => []) from rfl, hfindc]
    rfl
  have hfinal : search (buildStore [SVDoc.mk doc_id text md ts]) (String.mk q) k
      = [(SVDoc.mk doc_id text md ts, 1)] := by
    show collectResults (buildStore [SVDoc.mk doc_id text md ts])
        (((searchScores (buildStore [SVDoc.mk doc_id text md ts]).index
            (wordsOf (String.mk q))).mergeSort (fun a b => decide (b.2 ≤ a.2))).take k) []
      = [(SVDoc.mk doc_id text md ts, 1)]
    rw [hqws, hsrtEq, htake, hcollect]
  rw [hfinal]
  exact ⟨(SVDoc.mk doc_id text md ts, 1), List.mem_cons_self _ _, rfl, rfl, Nat.le_refl 1⟩

/-- Witness for C9 at a concrete document and token. -/
theorem search_roundtrip_witness :
    ∃ p ∈ search (add_document emptyStore "d1" "hello world" [] "t")
        (String.mk "hello".data) 1,
      p.1.id = "d1" ∧ p.1.text = "hello world" ∧ 1 ≤ p.2 :=
  search_roundtrip "d1" "hello world" [] "t" "hello".data (by decide) 1 (by decide)

end Strands
